import Mathlib

/-!
Verification of the document ingestion / retrieval pipeline and the PDF
discovery crawler of the `telephony` repository.  Each section embeds one
source unit (the chunker inlined in `src/app/api/google-drive/sync/route.ts`,
the preview route, the Pinecone client wrapper, the analysis route, and the
crawler in the pdf-links route) as executable Lean definitions, then proves
the stated properties about those definitions.
-/

set_option maxRecDepth 4000

/-! ## String utilities mirroring the JavaScript runtime primitives -/

/-- Whitespace test used by the embedding of JavaScript `trim` and `\s`. -/
def jsWs (c : Char) : Bool := c.isWhitespace

/-- Embedding of JavaScript `String.prototype.trim` on character lists:
drop leading whitespace, then trailing whitespace. -/
def trimChars (l : List Char) : List Char :=
  ((l.dropWhile jsWs).reverse.dropWhile jsWs).reverse

/-- Embedding of JavaScript `String.prototype.trim`. -/
def jsTrim (s : String) : String := (trimChars s.toList).asString

theorem toList_asString (s : String) : s.toList.asString = s := rfl

theorem dropWhile_length_le (p : α → Bool) :
    ∀ l : List α, (l.dropWhile p).length ≤ l.length
  | [] => Nat.le_refl _
  | a :: rest => by
    by_cases h : p a
    · simp only [List.dropWhile_cons, h, if_true]
      exact Nat.le_trans (dropWhile_length_le p rest) (Nat.le_succ _)
    · simp only [List.dropWhile_cons, h, if_false]
      exact Nat.le_refl _

/-! ## Chunker — inlined in the sync route (`route.ts` lines 72-91) -/

/-- The newline character. -/
def nl : Char := Char.ofNat 10

/-- Single-pass embedding of `text.split(/\n\n+/)`.  `acc` is the current
fragment in reversed order; `sep = true` means the scanner is inside a
separator run of newlines (consumed greedily). -/
def sbGo : List Char → List Char → Bool → List String
  | [], acc, false => [acc.reverse.asString]
  | [], _, true => [""]
  | a :: rest, acc, false =>
    if a = nl then
      match rest with
      | b :: rest2 =>
        if b = nl then acc.reverse.asString :: sbGo rest2 [] true
        else sbGo rest2 (b :: nl :: acc) false
      | [] => [(acc.reverse ++ [nl]).asString]
    else sbGo rest (a :: acc) false
  | c :: rest, _, true =>
    if c = nl then sbGo rest [] true
    else sbGo rest [c] false

/-- Embedding of `text.split(/\n\n+/)`. -/
def splitParagraphs (text : String) : List String := sbGo text.toList [] false

/-- `true` iff the list contains two consecutive newlines, i.e. the text has a
blank-line separator in the sense of `/\n\n+/`. -/
def hasBlankSep : List Char → Bool
  | [] => false
  | [_] => false
  | a :: b :: rest => (a = nl && b = nl) || hasBlankSep (b :: rest)

/-- Sentence-terminator test, the character class `[.!?]`. -/
def isTermChar (c : Char) : Bool := c = '.' || c = '!' || c = '?'

/-- Scanner state for the sentence splitter: scanning a fragment, inside a
run of sentence terminators (`ps` holds the run in reversed order), or inside
the whitespace run that completes a separator. -/
inductive SentState where
  | norm : SentState
  | punct : List Char → SentState
  | ws : SentState

/-- Single-pass embedding of `text.split(/[.!?]+\s+/)`: a separator is a
maximal run of sentence terminators immediately followed by at least one
whitespace character, both consumed greedily. -/
def ssGo : List Char → SentState → List Char → List String
  | [], .norm, acc => [acc.reverse.asString]
  | [], .punct ps, acc => [(acc.reverse ++ ps.reverse).asString]
  | [], .ws, _ => [""]
  | c :: rest, .norm, acc =>
    if isTermChar c then ssGo rest (.punct [c]) acc
    else ssGo rest .norm (c :: acc)
  | c :: rest, .punct ps, acc =>
    if isTermChar c then ssGo rest (.punct (c :: ps)) acc
    else if jsWs c then acc.reverse.asString :: ssGo rest .ws []
    else ssGo rest .norm (c :: (ps ++ acc))
  | c :: rest, .ws, _ =>
    if jsWs c then ssGo rest .ws []
    else if isTermChar c then ssGo rest (.punct [c]) []
    else ssGo rest .norm [c]

/-- Embedding of `text.split(/[.!?]+\s+/)`. -/
def splitSentences (text : String) : List String := ssGo text.toList .norm []

/-- `hasSentSepAux prev l = true` iff `l` contains a sentence terminator
immediately followed by whitespace; `prev` records whether the character
preceding `l` was a terminator. -/
def hasSentSepAux : Bool → List Char → Bool
  | _, [] => false
  | prev, c :: rest => (prev && jsWs c) || hasSentSepAux (isTermChar c) rest

/-- `true` iff `/[.!?]+\s+/` matches somewhere in the list. -/
def hasSentSep (l : List Char) : Bool := hasSentSepAux false l

/-- Embedding of the fixed-size fallback loop
(`for (i = 0; i < text.length; i += 500)`): windows of 500 characters, each
trimmed, kept when longer than 20 characters. -/
def fixedChunks (l : List Char) : List String :=
  (List.range ((l.length + 499) / 500)).filterMap fun i =>
    let c := jsTrim ((l.drop (500 * i)).take 500).asString
    if 20 < c.length then some c else none

/-- Tier 1: `text.split(/\n\n+/).filter(c => c.trim().length > 20)`. -/
def paragraphTier (text : String) : List String :=
  (splitParagraphs text).filter fun c => 20 < (jsTrim c).length

/-- Tier 2: `text.split(/[.!?]+\s+/).filter(c => c.trim().length > 20)`. -/
def sentenceTier (text : String) : List String :=
  (splitSentences text).filter fun c => 20 < (jsTrim c).length

/-- Tier 3: the fixed 500-character windows. -/
def fixedTier (text : String) : List String := fixedChunks text.toList

/-- Embedding of the chunking step of the sync route: paragraph split first,
sentence split if that yields nothing, fixed windows if both yield nothing. -/
def chunkText (text : String) : List String :=
  let paragraphChunks := paragraphTier text
  if 0 < paragraphChunks.length then paragraphChunks
  else
    let sentenceChunks := sentenceTier text
    if 0 < sentenceChunks.length then sentenceChunks
    else fixedTier text

/-! ### Splitter lemmas -/

theorem asString_toList (l : List Char) : l.asString.toList = l := rfl

theorem data_asString (s : String) : s.data.asString = s := rfl

theorem hasBlankSep_of_cons {x : Char} {l : List Char}
    (h : hasBlankSep (x :: l) = false) : hasBlankSep l = false := by
  cases l with
  | nil => rfl
  | cons y l2 =>
    simp only [hasBlankSep, Bool.or_eq_false_iff] at h
    exact h.2

theorem sbGo_no_sep : ∀ (l acc : List Char), hasBlankSep l = false →
    sbGo l acc false = [(acc.reverse ++ l).asString]
  | [], acc, _ => by simp [sbGo]
  | a :: rest, acc, h => by
    by_cases ha : a = nl
    · cases rest with
      | nil => subst ha; simp [sbGo]
      | cons b rest2 =>
        subst ha
        simp only [hasBlankSep, Bool.or_eq_false_iff, Bool.and_eq_false_iff,
          decide_eq_false_iff_not] at h
        have hb : ¬ b = nl := by
          rcases h.1 with h1 | h1
          · exact absurd trivial h1
          · exact h1
        have h2 : hasBlankSep rest2 = false := hasBlankSep_of_cons h.2
        rw [sbGo.eq_def]
        simp only [if_pos rfl, if_neg hb]
        rw [sbGo_no_sep rest2 (b :: nl :: acc) h2]
        simp
    · rw [sbGo.eq_def]
      simp only [if_neg ha]
      rw [sbGo_no_sep rest (a :: acc) (hasBlankSep_of_cons h)]
      simp

theorem ssGo_no_sep : ∀ (l : List Char),
    (∀ acc, hasSentSepAux false l = false →
      ssGo l .norm acc = [(acc.reverse ++ l).asString])
    ∧ (∀ ps acc, hasSentSepAux true l = false →
      ssGo l (.punct ps) acc = [(acc.reverse ++ ps.reverse ++ l).asString])
  | [] => by
    constructor
    · intro acc _; simp [ssGo]
    · intro ps acc _; simp [ssGo]
  | c :: rest => by
    constructor
    · intro acc h
      simp only [hasSentSepAux, Bool.false_and, Bool.false_or] at h
      by_cases hc : isTermChar c = true
      · rw [hc] at h
        simp only [ssGo, if_pos hc]
        rw [(ssGo_no_sep rest).2 [c] acc h]
        simp
      · have hcf : isTermChar c = false := by simpa using hc
        rw [hcf] at h
        simp only [ssGo, if_neg hc]
        rw [(ssGo_no_sep rest).1 (c :: acc) h]
        simp
    · intro ps acc h
      simp only [hasSentSepAux, Bool.true_and, Bool.or_eq_false_iff] at h
      obtain ⟨hw, h2⟩ := h
      by_cases hc : isTermChar c = true
      · rw [hc] at h2
        simp only [ssGo, if_pos hc]
        rw [(ssGo_no_sep rest).2 (c :: ps) acc h2]
        simp
      · have hcf : isTermChar c = false := by simpa using hc
        rw [hcf] at h2
        simp only [ssGo, if_neg hc, hw, Bool.false_eq_true, if_false]
        rw [(ssGo_no_sep rest).1 (c :: (ps ++ acc)) h2]
        simp

/-- If the text has no blank-line separator, the paragraph split returns the
whole text as its only fragment. -/
theorem splitParagraphs_no_sep (t : String) (h : hasBlankSep t.toList = false) :
    splitParagraphs t = [t] := by
  unfold splitParagraphs
  rw [sbGo_no_sep _ _ h]
  simp [toList_asString, data_asString]

/-- If the text has no sentence separator, the sentence split returns the
whole text as its only fragment. -/
theorem splitSentences_no_sep (t : String) (h : hasSentSep t.toList = false) :
    splitSentences t = [t] := by
  unfold splitSentences
  rw [(ssGo_no_sep t.toList).1 [] h]
  simp [toList_asString, data_asString]

/-! ### Trim lemmas -/

theorem dropWhile_head_false (p : α → Bool) (l : List α) {x : α} {xs : List α}
    (h : l.dropWhile p = x :: xs) : p x = false := by
  induction l with
  | nil => simp [List.dropWhile] at h
  | cons a rest ih =>
    rw [List.dropWhile_cons] at h
    by_cases hp : p a = true
    · rw [if_pos hp] at h; exact ih h
    · rw [if_neg hp] at h
      injection h with h1 _
      subst h1
      simpa using hp

theorem dropWhile_dropWhile (p : α → Bool) (l : List α) :
    (l.dropWhile p).dropWhile p = l.dropWhile p := by
  cases hd : l.dropWhile p with
  | nil => rfl
  | cons x xs =>
    have hx := dropWhile_head_false p l hd
    rw [List.dropWhile_cons, hx]
    simp

theorem getLast?_dropWhile (p : α → Bool) (l : List α) :
    l.dropWhile p = [] ∨ (l.dropWhile p).getLast? = l.getLast? := by
  induction l with
  | nil => left; rfl
  | cons a rest ih =>
    rw [List.dropWhile_cons]
    by_cases hp : p a = true
    · rw [if_pos hp]
      cases rest with
      | nil => left; rfl
      | cons b rest2 =>
        rcases ih with h | h
        · left; exact h
        · right; rw [h, List.getLast?_cons_cons]
    · rw [if_neg hp]; right; rfl

theorem trimChars_idem (l : List Char) : trimChars (trimChars l) = trimChars l := by
  have hdd := dropWhile_dropWhile jsWs ((l.dropWhile jsWs).reverse)
  have hD : (trimChars l).reverse = (l.dropWhile jsWs).reverse.dropWhile jsWs := by
    unfold trimChars; rw [List.reverse_reverse]
  have hDdrop : (trimChars l).dropWhile jsWs = trimChars l := by
    cases hC : (l.dropWhile jsWs).reverse.dropWhile jsWs with
    | nil =>
      unfold trimChars; rw [hC]; rfl
    | cons c cs =>
      cases hT : trimChars l with
      | nil => rfl
      | cons d ds =>
        rw [List.dropWhile_cons]
        have hhead : (trimChars l).head? = some d := by rw [hT]; rfl
        have h2 : (trimChars l).head? =
            ((l.dropWhile jsWs).reverse.dropWhile jsWs).getLast? := by
          unfold trimChars; rw [List.head?_reverse]
        rcases getLast?_dropWhile jsWs (l.dropWhile jsWs).reverse with h3 | h3
        · rw [h3] at hC; cases hC
        · rw [h3, List.getLast?_reverse] at h2
          cases hA : l.dropWhile jsWs with
          | nil =>
            rw [hA] at h2; rw [hhead] at h2; cases h2
          | cons y ys =>
            have hy := dropWhile_head_false jsWs l hA
            rw [hA] at h2; rw [hhead] at h2
            injection h2 with h4
            rw [h4, hy]
            simp
  show (((trimChars l).dropWhile jsWs).reverse.dropWhile jsWs).reverse = trimChars l
  rw [hDdrop, hD, hdd]
  unfold trimChars
  rfl

theorem jsTrim_idem (s : String) : jsTrim (jsTrim s) = jsTrim s := by
  unfold jsTrim
  rw [asString_toList, trimChars_idem]

/-- On text without blank-line separators whose trimmed length exceeds 20,
the chunker keeps the whole text as its single paragraph chunk. -/
theorem chunkText_whole_of_no_blank_sep (t : String)
    (hblank : hasBlankSep t.toList = false) (hlen : 20 < (jsTrim t).length) :
    chunkText t = [t] := by
  have hp : paragraphTier t = [t] := by
    unfold paragraphTier
    rw [splitParagraphs_no_sep t hblank]
    simp [hlen]
  simp [chunkText, hp]

/-- C2 (counterexample): the claim fails on the code.  The text "abc" has no
blank-line separator and no sentence terminator followed by whitespace, yet
the chunker yields zero chunks (all tiers filter it out as too short); and a
501-character run of letters has no separators either, yet the paragraph
tier keeps it whole, producing a chunk longer than 500 characters. -/
theorem chunkText_fallback_counterexample :
    (hasBlankSep "abc".toList = false ∧ hasSentSep "abc".toList = false ∧
      chunkText "abc" = [])
    ∧ (hasBlankSep ((List.replicate 501 'a').asString).toList = false ∧
        hasSentSep ((List.replicate 501 'a').asString).toList = false ∧
        ¬ ∀ c ∈ chunkText ((List.replicate 501 'a').asString), c.length ≤ 500) := by
  decide

/-- C2 (amended): for input text with no blank-line separators and no
sentence-terminator punctuation followed by whitespace, whose trimmed length
exceeds the 20-character minimum, the chunking step yields exactly one chunk,
namely the entire text (so chunks are not bounded by 500 characters; the
500-character windows are only reached when the earlier tiers keep nothing). -/
theorem chunkText_no_separator_single_chunk (t : String)
    (hblank : hasBlankSep t.toList = false)
    (hsent : hasSentSep t.toList = false)
    (hlen : 20 < (jsTrim t).length) :
    chunkText t = [t] :=
  chunkText_whole_of_no_blank_sep t hblank hlen

/-- Witness for the amended C2 theorem at a concrete separator-free text. -/
theorem chunkText_no_separator_single_chunk_witness :
    chunkText "abcdefghijklmnopqrstuvwxyz" = ["abcdefghijklmnopqrstuvwxyz"] :=
  chunkText_no_separator_single_chunk "abcdefghijklmnopqrstuvwxyz"
    (by decide) (by decide) (by decide)

/-- C3: the chunker uses exactly one tier per document — paragraph split
first, the sentence split only if that kept nothing, the fixed 500-character
windows only if both kept nothing — and every tier keeps only fragments
whose trimmed length exceeds the 20-character minimum. -/
theorem chunkText_single_tier (t : String) :
    chunkText t =
      (if 0 < (paragraphTier t).length then paragraphTier t
        else if 0 < (sentenceTier t).length then sentenceTier t
        else fixedTier t)
    ∧ (∀ c ∈ paragraphTier t, 20 < (jsTrim c).length)
    ∧ (∀ c ∈ sentenceTier t, 20 < (jsTrim c).length)
    ∧ (∀ c ∈ fixedTier t, 20 < (jsTrim c).length) := by
  refine ⟨rfl, ?_, ?_, ?_⟩
  · intro c hc
    exact of_decide_eq_true (List.mem_filter.mp hc).2
  · intro c hc
    exact of_decide_eq_true (List.mem_filter.mp hc).2
  · intro c hc
    unfold fixedTier fixedChunks at hc
    obtain ⟨i, _, hf⟩ := List.mem_filterMap.mp hc
    dsimp only at hf
    split at hf
    · injection hf with hf2
      subst hf2
      rw [jsTrim_idem]
      assumption
    · cases hf

/-! ## Ingestion orchestrator — sync route (`route.ts` lines 7-163) -/

/-- JavaScript falsiness of a possibly missing string (`undefined`, `null`
and `""` are falsy). -/
def strFalsy : Option String → Bool
  | none => true
  | some s => s.isEmpty

/-- `value || defaultValue` on a possibly missing string. -/
def strOrDefault (o : Option String) (d : String) : String :=
  match o with
  | some s => if s.isEmpty then d else s
  | none => d

/-- A file as returned by the Drive folder listing. -/
structure DriveFile where
  id : Option String
  name : Option String
  mimeType : Option String
deriving DecidableEq

/-- Metadata stored with each upserted vector. -/
structure VectorMeta where
  fileId : String
  title : String
  text : String
  chunkIndex : Nat
  mimeType : Option String
deriving DecidableEq

/-- One `(id, values, metadata)` vector sent to the store. -/
structure VectorRecord (γ : Type) where
  id : String
  values : γ
  metadata : VectorMeta
deriving DecidableEq

/-- One entry of the per-file report `processedFiles`. -/
structure ProcessedEntry where
  name : String
  chunks : Nat
  error : Option String
deriving DecidableEq

/-- One entry of `failedFileDetails`. -/
structure FailedDetail where
  name : String
  error : String
deriving DecidableEq

/-- External collaborators of the sync route.  Each call either returns a
value or throws with a message; `β` is the buffer type, `γ` the embedding
vector type. -/
structure SyncEnv (β γ : Type) where
  download : String → String → Except String β
  size : β → Nat
  extract : β → String → Except String String
  embed : String → Except String γ
  upsert : List (VectorRecord γ) → Except String Unit

/-- The embedding/vector-building loop of the sync route; `i` is the current
chunk index.  Ids are `fileId + "-chunk-" + chunkIndex`; any embedding
failure propagates (and is caught at the file level). -/
def buildVectors (env : SyncEnv β γ) (fid fname : String) (mime : Option String) :
    List String → Nat → Except String (List (VectorRecord γ))
  | [], _ => .ok []
  | c :: cs, i =>
    match env.embed c with
    | .error m => .error m
    | .ok v =>
      match buildVectors env fid fname mime cs (i + 1) with
      | .error m => .error m
      | .ok vs => .ok (⟨fid ++ "-chunk-" ++ toString i, v, ⟨fid, fname, c, i, mime⟩⟩ :: vs)

/-- Per-file processing (the body of the sync route's `for` loop): returns
the entry pushed to `processedFiles` and, when an exception was caught, the
entry pushed to `failedFileDetails`. -/
def processFile (env : SyncEnv β γ) (fid fname : String) (mime : Option String) :
    ProcessedEntry × Option FailedDetail :=
  match env.download fid (strOrDefault mime "text/plain") with
  | .error msg => (⟨fname, 0, some msg⟩, some ⟨fname, msg⟩)
  | .ok buf =>
    if env.size buf = 0 then (⟨fname, 0, some "File is empty (0 bytes)"⟩, none)
    else
      match env.extract buf (strOrDefault mime "text/plain") with
      | .error msg => (⟨fname, 0, some msg⟩, some ⟨fname, msg⟩)
      | .ok text =>
        if (jsTrim text).length = 0 then (⟨fname, 0, some "No text extracted"⟩, none)
        else
          if (chunkText text).length = 0 then (⟨fname, 0, some "No valid chunks created"⟩, none)
          else
            match buildVectors env fid fname mime (chunkText text) 0 with
            | .error msg => (⟨fname, 0, some msg⟩, some ⟨fname, msg⟩)
            | .ok vectors =>
              match env.upsert vectors with
              | .error msg => (⟨fname, 0, some msg⟩, some ⟨fname, msg⟩)
              | .ok _ => (⟨fname, vectors.length, none⟩, none)

/-- The per-batch loop of the sync route: files with a falsy id or name are
skipped, all others are processed in order; returns
`(processedFiles, totalChunks, failedFileDetails)`. -/
def syncFold (env : SyncEnv β γ) : List DriveFile →
    List ProcessedEntry × Nat × List FailedDetail
  | [] => ([], 0, [])
  | f :: fs =>
    if strFalsy f.id || strFalsy f.name then syncFold env fs
    else
      let r := processFile env (f.id.getD "") (f.name.getD "") f.mimeType
      let rest := syncFold env fs
      (r.1 :: rest.1, r.1.chunks + rest.2.1,
        match r.2 with
        | some d => d :: rest.2.2
        | none => rest.2.2)

/-- The aggregate response of the sync route. -/
structure SyncResponse where
  totalFiles : Nat
  totalChunks : Nat
  processedFiles : List ProcessedEntry
  failedFileDetails : List FailedDetail
deriving DecidableEq

/-- Assembly of the sync route's JSON response (`totalFiles` is
`processedFiles.length`). -/
def buildSyncResponse (env : SyncEnv β γ) (files : List DriveFile) : SyncResponse :=
  let r := syncFold env files
  { totalFiles := r.1.length
    totalChunks := r.2.1
    processedFiles := r.1
    failedFileDetails := r.2.2 }

/-- When per-file processing catches an exception, the processed entry
records that exception's message and zero chunks. -/
theorem processFile_exception (env : SyncEnv β γ) (fid fname : String)
    (mime : Option String) (e : ProcessedEntry) (d : FailedDetail)
    (h : processFile env fid fname mime = (e, some d)) :
    e = ⟨fname, 0, some d.error⟩ ∧ d.name = fname := by
  unfold processFile at h
  repeat' split at h
  all_goals injection h with h1 h2
  all_goals (try cases h2)
  all_goals (subst h1; exact ⟨rfl, rfl⟩)

/-- The batch loop distributes over list append: processing a batch is the
concatenation of processing its parts (no abort, no reordering). -/
theorem syncFold_append (env : SyncEnv β γ) (xs ys : List DriveFile) :
    syncFold env (xs ++ ys) =
      ((syncFold env xs).1 ++ (syncFold env ys).1,
        (syncFold env xs).2.1 + (syncFold env ys).2.1,
        (syncFold env xs).2.2 ++ (syncFold env ys).2.2) := by
  induction xs with
  | nil => simp [syncFold]
  | cons g xs ih =>
    by_cases hg : (strFalsy g.id || strFalsy g.name) = true
    · have hL : syncFold env ((g :: xs) ++ ys) = syncFold env (xs ++ ys) := by
        simp only [List.cons_append, syncFold]
        rw [if_pos hg]
        rfl
      have hR : syncFold env (g :: xs) = syncFold env xs := by
        simp only [syncFold]
        rw [if_pos hg]
      rw [hL, hR, ih]
    · have step : ∀ zs, syncFold env (g :: zs) =
          ((processFile env (g.id.getD "") (g.name.getD "") g.mimeType).1 ::
              (syncFold env zs).1,
            (processFile env (g.id.getD "") (g.name.getD "") g.mimeType).1.chunks +
              (syncFold env zs).2.1,
            match (processFile env (g.id.getD "") (g.name.getD "") g.mimeType).2 with
            | some d => d :: (syncFold env zs).2.2
            | none => (syncFold env zs).2.2) := by
        intro zs
        simp only [syncFold]
        rw [if_neg hg]
      rw [show (g :: xs) ++ ys = g :: (xs ++ ys) from rfl, step, step, ih]
      cases hr : (processFile env (g.id.getD "") (g.name.getD "") g.mimeType).2 <;>
        simp [Nat.add_assoc]

/-- C4: if processing of one file in the batch throws at any stage, that file
is recorded with the exception's message and zero chunks and appears in
`failedFileDetails`, while every other file contributes exactly its own
result — the loop never aborts. -/
theorem syncFold_isolates_failure (env : SyncEnv β γ) (pre post : List DriveFile)
    (f : DriveFile) (fid fname msg : String) (e : ProcessedEntry)
    (hid : f.id = some fid) (hname : f.name = some fname)
    (hfid : fid.isEmpty = false) (hfname : fname.isEmpty = false)
    (hthrow : processFile env fid fname f.mimeType = (e, some ⟨fname, msg⟩)) :
    syncFold env (pre ++ f :: post) =
      ((syncFold env pre).1 ++ ⟨fname, 0, some msg⟩ :: (syncFold env post).1,
        (syncFold env pre).2.1 + (syncFold env post).2.1,
        (syncFold env pre).2.2 ++ ⟨fname, msg⟩ :: (syncFold env post).2.2) := by
  have he : e = ⟨fname, 0, some msg⟩ :=
    (processFile_exception env fid fname f.mimeType e ⟨fname, msg⟩ hthrow).1
  subst he
  have hf : syncFold env [f] = ([⟨fname, 0, some msg⟩], 0, [⟨fname, msg⟩]) := by
    simp only [syncFold, hid, hname]
    rw [if_neg (by simp [strFalsy, hfid, hfname])]
    simp only [Option.getD_some, hthrow]
  rw [show pre ++ f :: post = pre ++ ([f] ++ post) from rfl, syncFold_append,
    syncFold_append, hf]
  simp

/-- A concrete collaborator set used by the witnesses: file "f2" fails to
download with message "boom", every other file downloads a fixed paragraph. -/
def sampleSyncEnv : SyncEnv String Nat where
  download := fun fid _ =>
    if fid = "f2" then .error "boom"
    else .ok "This paragraph is certainly long enough to become a chunk."
  size := String.length
  extract := fun b _ => .ok b
  embed := fun _ => .ok 0
  upsert := fun _ => .ok ()

/-- Witness for C4: in a 3-file batch whose middle file throws "boom" at
download, the report lists file 2 with error "boom" and zero chunks, file 2
is in `failedFileDetails`, and files 1 and 3 keep their chunk counts. -/
theorem syncFold_isolates_failure_witness :
    syncFold sampleSyncEnv
        [⟨some "f1", some "one.txt", none⟩, ⟨some "f2", some "two.txt", none⟩,
          ⟨some "f3", some "three.txt", none⟩] =
      ((syncFold sampleSyncEnv [⟨some "f1", some "one.txt", none⟩]).1 ++
          ⟨"two.txt", 0, some "boom"⟩ ::
            (syncFold sampleSyncEnv [⟨some "f3", some "three.txt", none⟩]).1,
        (syncFold sampleSyncEnv [⟨some "f1", some "one.txt", none⟩]).2.1 +
          (syncFold sampleSyncEnv [⟨some "f3", some "three.txt", none⟩]).2.1,
        (syncFold sampleSyncEnv [⟨some "f1", some "one.txt", none⟩]).2.2 ++
          ⟨"two.txt", "boom"⟩ ::
            (syncFold sampleSyncEnv [⟨some "f3", some "three.txt", none⟩]).2.2) :=
  syncFold_isolates_failure sampleSyncEnv
    [⟨some "f1", some "one.txt", none⟩] [⟨some "f3", some "three.txt", none⟩]
    ⟨some "f2", some "two.txt", none⟩ "f2" "two.txt" "boom"
    ⟨"two.txt", 0, some "boom"⟩ rfl rfl (by decide) (by decide) (by decide)

/-- C10: a listed file with a falsy id or name is skipped silently — it
leaves no entry in `processedFiles` nor in `failedFileDetails` — and the
reported `totalFiles` is `processedFiles.length`, so `totalFiles` can be
smaller than the folder listing's length. -/
theorem syncFold_skips_falsy (env : SyncEnv β γ) (pre post : List DriveFile)
    (f : DriveFile) (hf : (strFalsy f.id || strFalsy f.name) = true) :
    syncFold env (pre ++ f :: post) = syncFold env (pre ++ post)
    ∧ (buildSyncResponse env (pre ++ f :: post)).totalFiles =
        ((buildSyncResponse env (pre ++ f :: post)).processedFiles).length := by
  constructor
  · have h1 : syncFold env (f :: post) = syncFold env post := by
      simp only [syncFold]
      rw [if_pos hf]
    rw [syncFold_append, h1, ← syncFold_append]
  · rfl

/-- Witness for C10: a 2-file listing whose second file has no name syncs
exactly like the 1-file listing, and reports totalFiles = 1 < 2. -/
theorem syncFold_skips_falsy_witness :
    (syncFold sampleSyncEnv
        [⟨some "f1", some "one.txt", none⟩, ⟨some "x", none, none⟩] =
      syncFold sampleSyncEnv [⟨some "f1", some "one.txt", none⟩])
    ∧ (buildSyncResponse sampleSyncEnv
        [⟨some "f1", some "one.txt", none⟩, ⟨some "x", none, none⟩]).totalFiles =
      ((buildSyncResponse sampleSyncEnv
        [⟨some "f1", some "one.txt", none⟩, ⟨some "x", none, none⟩]).processedFiles).length
    ∧ (buildSyncResponse sampleSyncEnv
        [⟨some "f1", some "one.txt", none⟩, ⟨some "x", none, none⟩]).totalFiles = 1 :=
  ⟨(syncFold_skips_falsy sampleSyncEnv [⟨some "f1", some "one.txt", none⟩] []
      ⟨some "x", none, none⟩ (by decide)).1,
    (syncFold_skips_falsy sampleSyncEnv [⟨some "f1", some "one.txt", none⟩] []
      ⟨some "x", none, none⟩ (by decide)).2,
    by decide⟩

/-- The ids and chunk indexes produced by the vector-building loop starting
at index `i`: contiguous indexes, ids of the form fileId-chunk-index. -/
theorem buildVectors_ids (env : SyncEnv β γ) (fid fname : String)
    (mime : Option String) :
    ∀ (chunks : List String) (i : Nat) (vs : List (VectorRecord γ)),
      buildVectors env fid fname mime chunks i = .ok vs →
      vs.map (fun v => v.id) =
        (List.range chunks.length).map (fun k => fid ++ "-chunk-" ++ toString (i + k))
      ∧ vs.map (fun v => v.metadata.chunkIndex) =
        (List.range chunks.length).map (fun k => i + k)
  | [], i, vs => by
    intro h
    injection h with h1
    subst h1
    simp
  | c :: cs, i, vs => by
    intro h
    simp only [buildVectors] at h
    cases he : env.embed c with
    | error m => rw [he] at h; cases h
    | ok v =>
      rw [he] at h
      cases hrec : buildVectors env fid fname mime cs (i + 1) with
      | error m => rw [hrec] at h; cases h
      | ok vs2 =>
        rw [hrec] at h
        injection h with h1
        subst h1
        obtain ⟨ih1, ih2⟩ := buildVectors_ids env fid fname mime cs (i + 1) vs2 hrec
        have hr2 : List.range (c :: cs).length =
            0 :: (List.range cs.length).map Nat.succ := by
          rw [List.length_cons, List.range_succ_eq_map]
        constructor
        · rw [List.map_cons, ih1, hr2, List.map_cons, List.map_map, Nat.add_zero]
          simp only [List.cons.injEq]
          refine ⟨rfl, ?_⟩
          apply List.map_congr_left
          intro k _
          simp only [Function.comp_apply]
          congr 2
          omega
        · rw [List.map_cons, ih2, hr2, List.map_cons, List.map_map, Nat.add_zero]
          simp only [List.cons.injEq]
          refine ⟨rfl, ?_⟩
          apply List.map_congr_left
          intro k _
          simp only [Function.comp_apply]
          omega

/-- C5: chunk ids are assigned deterministically as
`fileId + "-chunk-" + chunkIndex` with chunk indexes contiguous from 0; two
ingestion runs over the same file id with unchanged chunk boundaries produce
identical id lists, so the set of distinct ids for that file does not grow
across runs. -/
theorem buildVectors_id_idempotent (env1 : SyncEnv β1 γ1) (env2 : SyncEnv β2 γ2)
    (fid fname1 fname2 : String) (mime1 mime2 : Option String)
    (chunks : List String)
    (vs1 : List (VectorRecord γ1)) (vs2 : List (VectorRecord γ2))
    (h1 : buildVectors env1 fid fname1 mime1 chunks 0 = .ok vs1)
    (h2 : buildVectors env2 fid fname2 mime2 chunks 0 = .ok vs2) :
    vs1.map (fun v => v.id) =
      (List.range chunks.length).map (fun k => fid ++ "-chunk-" ++ toString k)
    ∧ vs1.map (fun v => v.metadata.chunkIndex) = List.range chunks.length
    ∧ vs1.map (fun v => v.id) = vs2.map (fun v => v.id)
    ∧ ((vs1.map (fun v => v.id)) ++ (vs2.map (fun v => v.id))).toFinset =
        (vs1.map (fun v => v.id)).toFinset := by
  obtain ⟨a1, b1⟩ := buildVectors_ids env1 fid fname1 mime1 chunks 0 vs1 h1
  obtain ⟨a2, b2⟩ := buildVectors_ids env2 fid fname2 mime2 chunks 0 vs2 h2
  simp only [Nat.zero_add] at a1 b1 a2 b2
  refine ⟨a1, ?_, ?_, ?_⟩
  · rw [b1]
    simp
  · rw [a1, a2]
  · rw [a1, a2, List.toFinset_append, Finset.union_self]

/-- Witness for C5: two runs over the same two chunks of file "doc". -/
theorem buildVectors_id_idempotent_witness :
    ([(⟨"doc-chunk-0", 0, ⟨"doc", "d.txt", "chunk one text", 0, none⟩⟩ :
        VectorRecord Nat),
      ⟨"doc-chunk-1", 0, ⟨"doc", "d.txt", "chunk two text", 1, none⟩⟩].map
        (fun v => v.id) =
      (List.range 2).map (fun k => "doc" ++ "-chunk-" ++ toString k))
    ∧ ([(⟨"doc-chunk-0", 0, ⟨"doc", "d.txt", "chunk one text", 0, none⟩⟩ :
        VectorRecord Nat),
      ⟨"doc-chunk-1", 0, ⟨"doc", "d.txt", "chunk two text", 1, none⟩⟩].map
        (fun v => v.metadata.chunkIndex) = List.range 2) := by
  have h := buildVectors_id_idempotent sampleSyncEnv sampleSyncEnv "doc" "d.txt"
    "d.txt" none none ["chunk one text", "chunk two text"]
    [⟨"doc-chunk-0", 0, ⟨"doc", "d.txt", "chunk one text", 0, none⟩⟩,
      ⟨"doc-chunk-1", 0, ⟨"doc", "d.txt", "chunk two text", 1, none⟩⟩]
    [⟨"doc-chunk-0", 0, ⟨"doc", "d.txt", "chunk one text", 0, none⟩⟩,
      ⟨"doc-chunk-1", 0, ⟨"doc", "d.txt", "chunk two text", 1, none⟩⟩]
    rfl rfl
  exact ⟨h.1, h.2.1⟩

/-! ## Document preview route (`src/app/api/documents/preview/route.ts`) -/

/-- Metadata of a retrieval match as the preview route reads it: every field
may be missing; camelCase fields have snake_case fallbacks. -/
structure MatchMeta where
  fileId : Option String
  file_id : Option String
  chunkIndex : Option Nat
  chunk_index : Option Nat
  text : Option String
  content : Option String
deriving DecidableEq

/-- One match returned by the similarity query. -/
structure RetrievalMatch where
  id : String
  metadata : Option MatchMeta
deriving DecidableEq

/-- `a || b` on possibly missing strings, JavaScript falsiness included. -/
def falsyOr (a b : Option String) : Option String :=
  if strFalsy a then b else a

/-- `match.metadata?.fileId || match.metadata?.file_id`. -/
def matchFileId (m : RetrievalMatch) : Option String :=
  match m.metadata with
  | none => none
  | some md => falsyOr md.fileId md.file_id

/-- `Number(m.metadata?.chunkIndex || m.metadata?.chunk_index || 0) || 0`
(`0` is falsy, so a zero index falls through the chain and still yields 0). -/
def matchChunkIdx (m : RetrievalMatch) : Nat :=
  match m.metadata with
  | none => 0
  | some md =>
    match md.chunkIndex with
    | some n => if n = 0 then md.chunk_index.getD 0 else n
    | none => md.chunk_index.getD 0

/-- `match.metadata?.text || match.metadata?.content || ''`. -/
def matchText (m : RetrievalMatch) : String :=
  match m.metadata with
  | none => ""
  | some md => strOrDefault md.text (strOrDefault md.content "")

/-- The client-side filter by exact fileId match. -/
def previewFiltered (ms : List RetrievalMatch) (fid : String) :
    List RetrievalMatch :=
  ms.filter fun m => matchFileId m = some fid

/-- Comparator of the client-side sort: ascending `chunkIndex`
(`(a, b) => aIndex - bIndex`); the runtime's sort is stable. -/
def chunkLe (a b : RetrievalMatch) : Prop := matchChunkIdx a ≤ matchChunkIdx b

instance : DecidableRel chunkLe := fun a b => Nat.decLe _ _

/-- The filtered matches sorted (stably) by ascending chunkIndex. -/
def previewSorted (ms : List RetrievalMatch) (fid : String) :
    List RetrievalMatch :=
  (previewFiltered ms fid).insertionSort chunkLe

/-- The reconstructed preview text: texts of the sorted matches, empty texts
dropped (`.filter(Boolean)`), joined by a blank line. -/
def previewText (ms : List RetrievalMatch) (fid : String) : String :=
  String.intercalate "\n\n"
    (((previewSorted ms fid).map matchText).filter fun t => !t.isEmpty)

/-- C6: when the broad query's matches contain the target file's chunks (the
filtered list is nonempty, so the generic-query fallback is not taken), the
preview keeps exactly the matches whose metadata fileId equals the target,
sorts them by ascending chunkIndex, and joins their texts with a blank-line
separator, so the reconstructed chunk order follows ascending chunkIndex. -/
theorem preview_reconstruction (ms : List RetrievalMatch) (fid : String)
    (hne : previewFiltered ms fid ≠ []) :
    (∀ m, m ∈ previewFiltered ms fid ↔
        (m ∈ ms ∧ matchFileId m = some fid))
    ∧ (previewSorted ms fid).Perm (previewFiltered ms fid)
    ∧ (previewSorted ms fid).Pairwise
        (fun a b => matchChunkIdx a ≤ matchChunkIdx b)
    ∧ previewText ms fid =
        String.intercalate "\n\n"
          (((previewSorted ms fid).map matchText).filter fun t => !t.isEmpty) := by
  refine ⟨?_, ?_, ?_, rfl⟩
  · intro m
    constructor
    · intro hm
      have := List.mem_filter.mp hm
      exact ⟨this.1, of_decide_eq_true this.2⟩
    · intro hm
      exact List.mem_filter.mpr ⟨hm.1, decide_eq_true hm.2⟩
  · exact List.perm_insertionSort chunkLe _
  · haveI : IsTotal RetrievalMatch chunkLe :=
      ⟨fun a b => Nat.le_total (matchChunkIdx a) (matchChunkIdx b)⟩
    haveI : IsTrans RetrievalMatch chunkLe :=
      ⟨fun a b c => Nat.le_trans⟩
    exact List.sorted_insertionSort chunkLe (previewFiltered ms fid)

/-- Witness for C6: three matches, two for file "doc" in reversed chunk
order plus one for another file; the preview keeps only the "doc" matches,
orders them by chunkIndex, and joins their texts with a blank line. -/
theorem preview_reconstruction_witness :
    (previewSorted
        [⟨"doc-chunk-1", some ⟨some "doc", none, some 1, none, some "second chunk", none⟩⟩,
          ⟨"doc-chunk-0", some ⟨some "doc", none, some 0, none, some "first chunk", none⟩⟩,
          ⟨"other-chunk-0", some ⟨some "other", none, some 0, none, some "zzz", none⟩⟩]
        "doc").Perm
      (previewFiltered
        [⟨"doc-chunk-1", some ⟨some "doc", none, some 1, none, some "second chunk", none⟩⟩,
          ⟨"doc-chunk-0", some ⟨some "doc", none, some 0, none, some "first chunk", none⟩⟩,
          ⟨"other-chunk-0", some ⟨some "other", none, some 0, none, some "zzz", none⟩⟩]
        "doc")
    ∧ (previewSorted
        [⟨"doc-chunk-1", some ⟨some "doc", none, some 1, none, some "second chunk", none⟩⟩,
          ⟨"doc-chunk-0", some ⟨some "doc", none, some 0, none, some "first chunk", none⟩⟩,
          ⟨"other-chunk-0", some ⟨some "other", none, some 0, none, some "zzz", none⟩⟩]
        "doc").Pairwise (fun a b => matchChunkIdx a ≤ matchChunkIdx b)
    ∧ previewText
        [⟨"doc-chunk-1", some ⟨some "doc", none, some 1, none, some "second chunk", none⟩⟩,
          ⟨"doc-chunk-0", some ⟨some "doc", none, some 0, none, some "first chunk", none⟩⟩,
          ⟨"other-chunk-0", some ⟨some "other", none, some 0, none, some "zzz", none⟩⟩]
        "doc" = "first chunk\n\nsecond chunk" :=
  ⟨(preview_reconstruction
      [⟨"doc-chunk-1", some ⟨some "doc", none, some 1, none, some "second chunk", none⟩⟩,
        ⟨"doc-chunk-0", some ⟨some "doc", none, some 0, none, some "first chunk", none⟩⟩,
        ⟨"other-chunk-0", some ⟨some "other", none, some 0, none, some "zzz", none⟩⟩]
      "doc" (by decide)).2.1,
    (preview_reconstruction
      [⟨"doc-chunk-1", some ⟨some "doc", none, some 1, none, some "second chunk", none⟩⟩,
        ⟨"doc-chunk-0", some ⟨some "doc", none, some 0, none, some "first chunk", none⟩⟩,
        ⟨"other-chunk-0", some ⟨some "other", none, some 0, none, some "zzz", none⟩⟩]
      "doc" (by decide)).2.2.1,
    by decide⟩

/-! ## Pinecone client wrapper (`src/lib/pinecone.ts`) -/

/-- Configuration read from the process environment. -/
structure PineconeConfig where
  apiKey : Option String
  environment : Option String
  indexName : Option String
deriving DecidableEq

/-- The constructed client (it is built from the api key only). -/
structure PineconeClient where
  apiKey : String
deriving DecidableEq

/-- Embedding of `getPineconeClient`: returns the cached singleton when
present (no re-validation); otherwise validates only the api key and the
environment — not the index name — and caches a new client.  Returns the
client together with the updated cache. -/
def getPineconeClient (cache : Option PineconeClient) (cfg : PineconeConfig) :
    Except String (PineconeClient × Option PineconeClient) :=
  match cache with
  | some c => .ok (c, some c)
  | none =>
    if strFalsy cfg.apiKey || strFalsy cfg.environment then
      .error "Pinecone API key and environment must be set"
    else
      .ok (⟨cfg.apiKey.getD ""⟩, some ⟨cfg.apiKey.getD ""⟩)

/-- The index name used by query and upsert:
`process.env.PINECONE_INDEX_NAME || 'adacompliance-index'`, re-read on every
call and never validated. -/
def pineconeIndexName (cfg : PineconeConfig) : String :=
  strOrDefault cfg.indexName "adacompliance-index"

/-- Embedding of `queryPinecone`: obtains the client, then queries the index
named by `pineconeIndexName`; the external query is the oracle `q` (client,
index name, topK).  The result records which index name was used. -/
def queryPinecone (cache : Option PineconeClient) (cfg : PineconeConfig)
    (q : PineconeClient → String → Nat → List RetrievalMatch) (topK : Nat) :
    Except String (List RetrievalMatch × String × Option PineconeClient) :=
  match getPineconeClient cache cfg with
  | .error m => .error m
  | .ok (c, cache2) =>
    .ok (q c (pineconeIndexName cfg) topK, pineconeIndexName cfg, cache2)

/-- C8 (counterexample): with the API key and the environment set but the
index name missing, client construction does not throw, and a query silently
uses the default index name — contradicting the claim that a missing index
name makes construction throw. -/
theorem pinecone_counterexample :
    getPineconeClient none ⟨some "key", some "env", none⟩ =
      .ok (⟨"key"⟩, some ⟨"key"⟩)
    ∧ pineconeIndexName ⟨some "key", some "env", none⟩ = "adacompliance-index" :=
  ⟨rfl, rfl⟩

/-- C8 (amended): client construction fails fast iff the API key or the
environment variable is missing/empty; the index name is never validated and
falls back to "adacompliance-index", re-read on each query; once the client
singleton is cached, later calls return it without re-validating anything. -/
theorem pinecone_failfast (cfg : PineconeConfig) :
    ((∃ m, getPineconeClient none cfg = .error m) ↔
      (strFalsy cfg.apiKey || strFalsy cfg.environment) = true)
    ∧ (∀ c, getPineconeClient (some c) cfg = .ok (c, some c))
    ∧ (∀ c q topK, queryPinecone (some c) cfg q topK =
        .ok (q c (strOrDefault cfg.indexName "adacompliance-index") topK,
          strOrDefault cfg.indexName "adacompliance-index", some c)) := by
  refine ⟨?_, fun c => rfl, fun c q topK => rfl⟩
  constructor
  · rintro ⟨m, hm⟩
    by_contra hb
    simp only [getPineconeClient, if_neg hb] at hm
    cases hm
  · intro hb
    exact ⟨"Pinecone API key and environment must be set",
      by simp [getPineconeClient, hb]⟩

/-- Witness for the amended C8 theorem at a concrete configuration with a
missing api key and at a concrete cached client. -/
theorem pinecone_failfast_witness :
    (∃ m, getPineconeClient none ⟨none, some "env", some "idx"⟩ = .error m) ∧
    getPineconeClient (some ⟨"k"⟩) ⟨none, none, none⟩ =
      .ok (⟨"k"⟩, some ⟨"k"⟩) :=
  ⟨(pinecone_failfast ⟨none, some "env", some "idx"⟩).1.mpr (by decide),
    (pinecone_failfast ⟨none, none, none⟩).2.1 ⟨"k"⟩⟩

/-! ## PDF analysis route (`src/unnamed/part_002`, pdf-links analysis) -/

/-- Opening and closing brace characters. -/
def lbrace : Char := Char.ofNat 123

def rbrace : Char := Char.ofNat 125

/-- Embedding of `response.match(/\{[\s\S]*\}/)`: greedy, so the match runs
from the first opening brace to the last closing brace, provided the latter
does not precede the former. -/
def jsonObjectMatch (s : String) : Option String :=
  let l := s.toList
  match l.findIdx? (· = lbrace) with
  | none => none
  | some i =>
    match l.reverse.findIdx? (· = rbrace) with
    | none => none
    | some jr =>
      let j := l.length - 1 - jr
      if i ≤ j then some (((l.drop i).take (j - i + 1)).asString) else none

/-- One entry of `wcagConformance.failedCriteria`. -/
structure FailedCriterion where
  criterion : String
  name : String
  level : String
  description : String
  impact : String
deriving DecidableEq

/-- The `wcagConformance` object of an analysis report. -/
structure WcagConformance where
  level : String
  passedCriteria : List String
  failedCriteria : List FailedCriterion
  warnings : List String
deriving DecidableEq

/-- The fields the route reads from a successfully parsed LLM response; each
may be absent in the loose JSON. -/
structure ParsedAnalysis where
  risks : Option (List String)
  summary : Option String
  riskLevel : Option String
  wcagConformance : Option WcagConformance
deriving DecidableEq

/-- The deterministic fallback used when no JSON object can be parsed from
the LLM response. -/
def fallbackAnalysis : ParsedAnalysis :=
  ⟨some ["Unable to parse detailed analysis"],
    some "PDF analyzed but detailed results unavailable",
    some "medium",
    some ⟨"Non-conformant", [], [], ["Analysis parsing failed"]⟩⟩

/-- One entry of the route's `results` array. -/
structure AnalysisResult where
  filename : String
  success : Bool
  error : Option String
  risks : List String
  summary : String
  riskLevel : String
  wcagConformance : WcagConformance
deriving DecidableEq

/-- External collaborators of the analysis route: per-file text extraction,
the LLM completion for the built prompt, and `JSON.parse` on the extracted
substring; the first two may throw. -/
structure AnalyzeEnv where
  extractText : String → Except String String
  llm : String → Except String String
  parseJson : String → Option ParsedAnalysis

/-- The entry pushed when no text could be extracted from the PDF. -/
def noTextResult (filename : String) : AnalysisResult :=
  ⟨filename, false, some "No text extracted from PDF", [],
    "Unable to extract text for analysis", "high",
    ⟨"Non-conformant", [],
      [⟨"N/A", "Unable to analyze", "AA",
        "PDF could not be processed for analysis",
        "Cannot determine compliance status"⟩], []⟩⟩

/-- The entry pushed when processing of one PDF throws. -/
def errorResult (filename msg : String) : AnalysisResult :=
  ⟨filename, false, some msg, [], "Analysis failed", "high",
    ⟨"Non-conformant", [], [], []⟩⟩

/-- Per-file body of the analysis loop: extract text, ask the LLM, extract a
JSON object substring and parse it, falling back to `fallbackAnalysis` when
either step fails; exceptions are caught per file. -/
def analyzeOne (env : AnalyzeEnv) (filename : String) : AnalysisResult :=
  match env.extractText filename with
  | .error msg => errorResult filename msg
  | .ok text =>
    if (jsTrim text).length = 0 then noTextResult filename
    else
      match env.llm text with
      | .error msg => errorResult filename msg
      | .ok response =>
        let analysis :=
          match jsonObjectMatch response with
          | some sub =>
            match env.parseJson sub with
            | some p => p
            | none => fallbackAnalysis
          | none => fallbackAnalysis
        { filename := filename
          success := true
          error := none
          risks := analysis.risks.getD []
          summary := strOrDefault analysis.summary "Analysis completed"
          riskLevel := strOrDefault analysis.riskLevel "medium"
          wcagConformance :=
            analysis.wcagConformance.getD ⟨"Non-conformant", [], [], []⟩ }

/-- The route's loop over the uploaded PDFs. -/
def analyzeBatch (env : AnalyzeEnv) (files : List String) : List AnalysisResult :=
  files.map (analyzeOne env)

/-- C9: when the LLM response contains no parseable JSON object substring —
either no brace-delimited substring at all, or one that fails to parse — the
item's result is the fixed low-confidence fallback report (success, no
error), and the rest of the batch is still analyzed. -/
theorem analyze_parse_fallback (env : AnalyzeEnv) (pre post : List String)
    (fn text response : String)
    (hex : env.extractText fn = .ok text)
    (hnz : ¬ (jsTrim text).length = 0)
    (hllm : env.llm text = .ok response)
    (hnoparse : jsonObjectMatch response = none ∨
      ∃ sub, jsonObjectMatch response = some sub ∧ env.parseJson sub = none) :
    analyzeOne env fn =
      { filename := fn
        success := true
        error := none
        risks := ["Unable to parse detailed analysis"]
        summary := "PDF analyzed but detailed results unavailable"
        riskLevel := "medium"
        wcagConformance := ⟨"Non-conformant", [], [], ["Analysis parsing failed"]⟩ }
    ∧ analyzeBatch env (pre ++ fn :: post) =
        analyzeBatch env pre ++ analyzeOne env fn :: analyzeBatch env post := by
  constructor
  · unfold analyzeOne
    rw [hex]
    dsimp only
    rw [if_neg hnz, hllm]
    dsimp only
    rcases hnoparse with h | ⟨sub, h1, h2⟩
    · rw [h]
      rfl
    · rw [h1]
      dsimp only
      rw [h2]
      rfl
  · simp [analyzeBatch]

/-- A concrete collaborator set for the C9 witness: the LLM answers without
any JSON object, and `JSON.parse` rejects everything. -/
def sampleAnalyzeEnv : AnalyzeEnv where
  extractText := fun f => .ok ("document content of " ++ f)
  llm := fun _ => .ok "I am sorry, I cannot produce structured output."
  parseJson := fun _ => none

/-- Witness for C9: a 2-file batch whose first response has no JSON object;
the first result is the fallback report and the second file is still
analyzed. -/
theorem analyze_parse_fallback_witness :
    analyzeOne sampleAnalyzeEnv "a.pdf" =
      { filename := "a.pdf"
        success := true
        error := none
        risks := ["Unable to parse detailed analysis"]
        summary := "PDF analyzed but detailed results unavailable"
        riskLevel := "medium"
        wcagConformance := ⟨"Non-conformant", [], [], ["Analysis parsing failed"]⟩ }
    ∧ analyzeBatch sampleAnalyzeEnv ["a.pdf", "b.pdf"] =
        analyzeBatch sampleAnalyzeEnv [] ++
          analyzeOne sampleAnalyzeEnv "a.pdf" :: analyzeBatch sampleAnalyzeEnv ["b.pdf"] :=
  analyze_parse_fallback sampleAnalyzeEnv [] ["b.pdf"] "a.pdf"
    ("document content of " ++ "a.pdf")
    "I am sorry, I cannot produce structured output."
    rfl (by decide) rfl (Or.inl (by decide))

/-! ## PDF discovery crawler (`src/unnamed/part_003`, pdf-links route) -/

/-- The double-quote character. -/
def dqc : Char := Char.ofNat 34

/-- The single-quote character. -/
def sqc : Char := Char.ofNat 39

/-- `String.prototype.startsWith`, kernel-computable. -/
def strStartsWith (s pre : String) : Bool := pre.toList.isPrefixOf s.toList

/-- `String.prototype.endsWith`, kernel-computable. -/
def strEndsWith (s suf : String) : Bool :=
  suf.toList.reverse.isPrefixOf s.toList.reverse

/-- `String.prototype.toLowerCase`, kernel-computable. -/
def strLower (s : String) : String := (s.toList.map Char.toLower).asString

/-- Split a list at the first occurrence of `pat`, returning the part before
and the part after the occurrence. -/
def breakSub (pat : List Char) : List Char → Option (List Char × List Char)
  | [] => if pat.isEmpty then some ([], []) else none
  | c :: rest =>
    if pat.isPrefixOf (c :: rest) then some ([], (c :: rest).drop pat.length)
    else
      match breakSub pat rest with
      | some pq => some (c :: pq.1, pq.2)
      | none => none

/-- `true` iff `pat` occurs as a contiguous substring ( `String.includes`). -/
def hasSub (s pat : String) : Bool :=
  go pat.toList s.toList
where
  go (pat : List Char) : List Char → Bool
    | [] => pat.isEmpty
    | c :: rest => pat.isPrefixOf (c :: rest) || go pat rest

/-- A parsed URL in the `scheme://host/path?query#frag` shape supported by
this embedding (no userinfo/port; an empty path is normalized to "/", as the
URL class does). -/
structure Url where
  scheme : String
  host : String
  path : String
  query : String
  frag : String
deriving DecidableEq

/-- Embedding of `new URL(s)` for absolute URLs; `none` models the
constructor throwing. -/
def parseUrl (s : String) : Option Url :=
  match breakSub "://".toList s.toList with
  | none => none
  | some sr =>
    if sr.1.isEmpty then none
    else
      let scheme := sr.1.asString
      let l := sr.2
      let host := l.takeWhile fun c => c != '/' && c != '?' && c != '#'
      let after := l.dropWhile fun c => c != '/' && c != '?' && c != '#'
      if host.isEmpty then none
      else
        let path0 := after.takeWhile fun c => c != '?' && c != '#'
        let path := if path0.isEmpty then "/" else path0.asString
        let after2 := after.dropWhile fun c => c != '?' && c != '#'
        match after2 with
        | '?' :: qrest =>
          let query := (qrest.takeWhile fun c => c != '#').asString
          let frag :=
            match qrest.dropWhile fun c => c != '#' with
            | _ :: f => f.asString
            | [] => ""
          some ⟨scheme, host.asString, path, query, frag⟩
        | '#' :: frest => some ⟨scheme, host.asString, path, "", frest.asString⟩
        | _ => some ⟨scheme, host.asString, path, "", ""⟩

/-- Serialization back to a string (`url.href`). -/
def Url.href (u : Url) : String :=
  u.scheme ++ "://" ++ u.host ++ u.path ++
    (if u.query.toList.isEmpty then "" else "?" ++ u.query) ++
    (if u.frag.toList.isEmpty then "" else "#" ++ u.frag)

/-- `replace(/\/$/, '')`: strip one trailing slash. -/
def dropTrailingSlash (s : String) : String :=
  if strEndsWith s "/" then s.toList.dropLast.asString else s

/-- Scanner state for the `/href=["']([^"']+)["']/gi` matcher: `pat n` has
matched the first `n` characters of `href=` and expects character `n`;
`quoteOpen` expects the opening quote; `cap` accumulates the capture
(reversed) until a closing quote. -/
inductive HrefState where
  | pat : Nat → HrefState
  | quoteOpen : HrefState
  | cap : List Char → HrefState

/-- Character `n` of the pattern `href=`. -/
def hrefPatChar (n : Nat) : Char :=
  match n with
  | 0 => 'h'
  | 1 => 'r'
  | 2 => 'e'
  | 3 => 'f'
  | _ => '='

/-- One-pass DFA equivalent of repeatedly executing the global regex
`/href=["']([^"']+)["']/gi`: emits each nonempty capture between quotes that
follows a (case-insensitive) `href=`.  The pattern's characters are
pairwise distinct, so on a mismatch the only viable restart is at `h`. -/
def scanHrefs : List Char → HrefState → List String
  | [], _ => []
  | c :: rest, .pat n =>
    if c.toLower = hrefPatChar n then
      if n = 4 then scanHrefs rest .quoteOpen
      else scanHrefs rest (.pat (n + 1))
    else if c.toLower = 'h' then scanHrefs rest (.pat 1)
    else scanHrefs rest (.pat 0)
  | c :: rest, .quoteOpen =>
    if c = dqc || c = sqc then scanHrefs rest (.cap [])
    else if c.toLower = 'h' then scanHrefs rest (.pat 1)
    else scanHrefs rest (.pat 0)
  | c :: rest, .cap acc =>
    if c = dqc || c = sqc then
      if acc.isEmpty then scanHrefs rest (.pat 0)
      else acc.reverse.asString :: scanHrefs rest (.pat 0)
    else scanHrefs rest (.cap (c :: acc))

/-- All href attribute values of an HTML string, in document order. -/
def extractHrefs (html : String) : List String := scanHrefs html.toList (.pat 0)

/-- The base path up to and including its last slash, for relative URL
resolution. -/
def dirOf (path : String) : String :=
  (path.toList.reverse.dropWhile fun c => c != '/').reverse.asString

/-- Embedding of `new URL(link, baseUrl).href` for the links that reach this
branch (no scheme, not starting with `/`); dot segments are not
normalized. -/
def resolveRel (b : Url) (link : String) : String :=
  if hasSub link "://" then link
  else b.scheme ++ "://" ++ b.host ++ dirOf b.path ++ link

/-- One iteration of the link loop of `extractPDFLinks`: skip pseudo-links,
absolutize, keep only same-domain PDF-classified links, normalize (drop
fragment and one trailing slash), and dedup against the accumulator. -/
def handleLink (b : Url) (acc : List String) (link0 : String) : List String :=
  if strStartsWith link0 "javascript:" || strStartsWith link0 "mailto:" ||
      strStartsWith link0 "tel:" || strStartsWith link0 "#" then acc
  else
    let link :=
      if strStartsWith link0 "/" then b.scheme ++ "://" ++ b.host ++ link0
      else if !strStartsWith link0 "http" then resolveRel b link0
      else link0
    match parseUrl link with
    | none => acc
    | some u =>
      if u.host = b.host || strEndsWith u.host ("." ++ b.host) then
        if strEndsWith (strLower u.path) ".pdf" || hasSub (strLower link) ".pdf" ||
            hasSub u.query ".pdf" then
          let nu := dropTrailingSlash { u with frag := "" }.href
          if acc.contains nu then acc else acc ++ [nu]
        else acc
      else acc

/-- The regex-exec loop of `extractPDFLinks`: stops as soon as the
accumulator reaches `maxPdfs`. -/
def processLinks (b : Url) (maxPdfs : Nat) : List String → List String → List String
  | [], acc => acc
  | link :: rest, acc =>
    if maxPdfs ≤ acc.length then acc
    else processLinks b maxPdfs rest (handleLink b acc link)

/-- Embedding of `extractPDFLinks(html, baseUrl, maxPdfs)`.  An unparseable
base URL throws in the source; it cannot occur for the crawl's fetched URLs
and is mapped to `[]` here. -/
def extractPDFLinks (html baseUrl : String) (maxPdfs : Nat) : List String :=
  match parseUrl baseUrl with
  | none => []
  | some b => processLinks b maxPdfs (extractHrefs html) []

/-- A discovered PDF link record. -/
structure PdfRecord where
  url : String
  name : String
deriving DecidableEq

/-- `urlObj.pathname.split('/').pop() || 'document.pdf'`, `.pdf` suffix
enforced. -/
def pdfName (pdfUrl : String) : String :=
  let path :=
    match parseUrl pdfUrl with
    | some u => u.path
    | none => ""
  let last := (path.toList.reverse.takeWhile fun c => c != '/').reverse
  let name := if last.isEmpty then "document.pdf" else last.asString
  if strEndsWith name ".pdf" then name else name ++ ".pdf"

/-- The per-page accumulation of found PDF urls into records, deduplicated
by exact url. -/
def addPdfRecords (acc : List PdfRecord) (found : List String) : List PdfRecord :=
  found.foldl
    (fun acc pdfUrl =>
      if acc.any fun p => p.url = pdfUrl then acc
      else acc ++ [⟨pdfUrl, pdfName pdfUrl⟩])
    acc

/-- The crawl state; `trace` is observational only: it records each fetched
URL with the depth annotation it carried when fetched. -/
structure CrawlState where
  visited : List String
  pdfLinks : List PdfRecord
  queue : List String
  depthMap : List (String × Nat)
  trace : List (String × Nat)
deriving DecidableEq

/-- `depthMap.get(u)` on the association list. -/
def dmLookup (dm : List (String × Nat)) (u : String) : Option Nat :=
  (dm.find? fun p => p.1 = u).map fun p => p.2

/-- `depthMap.has(u)`. -/
def dmHas (dm : List (String × Nat)) (u : String) : Bool :=
  (dm.find? fun p => p.1 = u).isSome

/-- The crawl's depth bound (`maxDepth = 3`). -/
def crawlMaxDepth : Nat := 3

/-- The enqueue loop over a page's links: push each link not yet visited and
not yet known to the depth map, recording it at `depth + 1`. -/
def enqueueAll (visited : List String) (depth : Nat) :
    List String → List String → List (String × Nat) →
      List String × List (String × Nat)
  | [], q, dm => (q, dm)
  | link :: rest, q, dm =>
    if !visited.contains link && !dmHas dm link then
      enqueueAll visited depth rest (q ++ [link]) (dm ++ [(link, depth + 1)])
    else enqueueAll visited depth rest q dm

/-- One dequeue-and-process step of the crawl loop (`url` has already been
shifted off the queue; `rest` is the remaining queue). -/
def crawlStep (env : String → Option String) (maxPdfs : Nat) (s : CrawlState)
    (url : String) (rest : List String) : CrawlState :=
  let depth := (dmLookup s.depthMap url).getD 0
  if s.visited.contains url || crawlMaxDepth < depth then
    { s with queue := rest }
  else
    let s1 : CrawlState :=
      { s with
          queue := rest
          visited := s.visited ++ [url]
          trace := s.trace ++ [(url, depth)] }
    match env url with
    | none => s1
    | some html =>
      let found := extractPDFLinks html url (maxPdfs - s1.pdfLinks.length)
      let pdfs2 := addPdfRecords s1.pdfLinks found
      let s2 := { s1 with pdfLinks := pdfs2 }
      if pdfs2.length < maxPdfs ∧ depth < crawlMaxDepth then
        let pageLinks := (extractPDFLinks html url 50).filter fun l =>
          !strEndsWith l ".pdf"
        let qdm := enqueueAll s2.visited depth pageLinks s2.queue s2.depthMap
        { s2 with queue := qdm.1, depthMap := qdm.2 }
      else s2

/-- The crawl's while loop, fuel-bounded; the source loop runs until the
queue empties or `maxPdfs` is reached, and any sufficiently large fuel
reaches that fixed point (witnessed by an empty final queue below). -/
def crawlLoop (env : String → Option String) (maxPdfs : Nat) :
    Nat → CrawlState → CrawlState
  | 0, s => s
  | fuel + 1, s =>
    match s.queue with
    | [] => s
    | url :: rest =>
      if s.pdfLinks.length < maxPdfs then
        crawlLoop env maxPdfs fuel (crawlStep env maxPdfs s url rest)
      else s

/-- The initial crawl state for a seed URL. -/
def initCrawlState (startUrl : String) : CrawlState :=
  ⟨[], [], [startUrl], [(startUrl, 0)], []⟩

/-- Embedding of `crawlForPDFs(startUrl, maxPdfs)`. -/
def crawlForPDFs (env : String → Option String) (startUrl : String)
    (maxPdfs fuel : Nat) : List PdfRecord :=
  (crawlLoop env maxPdfs fuel (initCrawlState startUrl)).pdfLinks

/-- The spec's example homepage: links to `/docs/a.pdf` and `/page2`. -/
def homepageHtml : String :=
  "<html><body><a href=\"/docs/a.pdf\">A</a> <a href=\"/page2\">Page 2</a></body></html>"

/-- The spec's example second page: a link to `/docs/b.pdf`. -/
def page2Html : String :=
  "<html><body><a href=\"/docs/b.pdf\">B</a></body></html>"

/-- The fetch environment of the example scenario. -/
def exampleEnv : String → Option String := fun u =>
  if u = "https://example.com" then some homepageHtml
  else if u = "https://example.com/page2" then some page2Html
  else none

/-- C1 (failing evaluation): on the spec's example site the crawl returns
only `a.pdf` — never `b.pdf` — because the links enqueued for further
crawling are taken from `extractPDFLinks` (which returns only PDF-classified
links) filtered to those not ending in `.pdf`; the ordinary page link
`/page2` is never enqueued, so page2 is never visited.  The final queue is
empty (the loop terminated) and only the seed was ever visited. -/
theorem crawl_example_misses_nested_pdf :
    crawlForPDFs exampleEnv "https://example.com" 10 100 =
      [⟨"https://example.com/docs/a.pdf", "a.pdf"⟩]
    ∧ (crawlLoop exampleEnv 10 100 (initCrawlState "https://example.com")).queue = []
    ∧ (crawlLoop exampleEnv 10 100 (initCrawlState "https://example.com")).visited =
        ["https://example.com"]
    ∧ (extractPDFLinks homepageHtml "https://example.com" 50).filter
        (fun l => !strEndsWith l ".pdf") = []
    ∧ extractPDFLinks page2Html "https://example.com/page2" 10 =
        ["https://example.com/docs/b.pdf"] := by
  refine ⟨by decide, by decide, by decide, by decide, by decide⟩

/-- `v` is a crawl link of `u`: `u`'s page fetches and `v` is one of the
links the crawl loop would consider enqueuing from it. -/
def crawlLinks (env : String → Option String) (u v : String) : Prop :=
  ∃ html, env u = some html ∧
    v ∈ (extractPDFLinks html u 50).filter fun l => !strEndsWith l ".pdf"

/-- Reachability from the seed in exactly `n` crawl-link steps. -/
inductive ReachN (env : String → Option String) (seed : String) :
    Nat → String → Prop where
  | base : ReachN env seed 0 seed
  | step {n : Nat} {u v : String} : ReachN env seed n u → crawlLinks env u v →
      ReachN env seed (n + 1) v

/-- The crawl loop invariant: every depth-map entry is bounded by the depth
limit and reachable within its recorded depth; every queued URL has a
depth-map entry; the visited list has no duplicates; the fetch trace lists
exactly the visited URLs in order; and every fetch happened at a recorded
depth within the limit, of a URL reachable within that depth. -/
def CrawlInv (env : String → Option String) (seed : String)
    (s : CrawlState) : Prop :=
  (∀ p ∈ s.depthMap, p.2 ≤ crawlMaxDepth ∧ ∃ k ≤ p.2, ReachN env seed k p.1)
  ∧ (∀ u ∈ s.queue, dmHas s.depthMap u = true)
  ∧ s.visited.Nodup
  ∧ s.trace.map Prod.fst = s.visited
  ∧ (∀ e ∈ s.trace, e.2 ≤ crawlMaxDepth ∧ ∃ k ≤ e.2, ReachN env seed k e.1)

theorem dmHas_append_left {dm more : List (String × Nat)} {u : String}
    (h : dmHas dm u = true) : dmHas (dm ++ more) u = true := by
  unfold dmHas at h ⊢
  rw [List.find?_append]
  cases hf : dm.find? fun p => p.1 = u with
  | none => rw [hf] at h; cases h
  | some p => rfl

theorem dmHas_append_self (dm : List (String × Nat)) (u : String) (d : Nat) :
    dmHas (dm ++ [(u, d)]) u = true := by
  unfold dmHas
  rw [List.find?_append]
  cases hf : dm.find? fun p => p.1 = u with
  | none => simp
  | some p => rfl

/-- The enqueue loop preserves the depth-map and queue invariants, given
that every candidate link is reachable within `depth + 1 ≤ crawlMaxDepth`. -/
theorem enqueueAll_inv (env : String → Option String) (seed : String)
    (visited : List String) (depth : Nat)
    (hd : depth + 1 ≤ crawlMaxDepth) :
    ∀ (links q : List String) (dm : List (String × Nat)),
      (∀ u ∈ q, dmHas dm u = true) →
      (∀ p ∈ dm, p.2 ≤ crawlMaxDepth ∧ ∃ k ≤ p.2, ReachN env seed k p.1) →
      (∀ v ∈ links, ∃ k ≤ depth + 1, ReachN env seed k v) →
      (∀ u ∈ (enqueueAll visited depth links q dm).1,
        dmHas (enqueueAll visited depth links q dm).2 u = true)
      ∧ (∀ p ∈ (enqueueAll visited depth links q dm).2,
        p.2 ≤ crawlMaxDepth ∧ ∃ k ≤ p.2, ReachN env seed k p.1)
  | [], q, dm => by
    intro hq hdm _
    exact ⟨hq, hdm⟩
  | link :: rest, q, dm => by
    intro hq hdm hlinks
    have hstep : enqueueAll visited depth (link :: rest) q dm =
        if !visited.contains link && !dmHas dm link then
          enqueueAll visited depth rest (q ++ [link]) (dm ++ [(link, depth + 1)])
        else enqueueAll visited depth rest q dm := rfl
    rw [hstep]
    by_cases hc : (!visited.contains link && !dmHas dm link) = true
    · rw [if_pos hc]
      apply enqueueAll_inv env seed visited depth hd rest
          (q ++ [link]) (dm ++ [(link, depth + 1)])
      · intro u hu
        rcases List.mem_append.mp hu with hu | hu
        · exact dmHas_append_left (hq u hu)
        · rw [List.mem_singleton.mp hu]
          exact dmHas_append_self dm link (depth + 1)
      · intro p hp
        rcases List.mem_append.mp hp with hp | hp
        · exact hdm p hp
        · rw [List.mem_singleton.mp hp]
          exact ⟨hd, hlinks link (List.mem_cons_self link rest)⟩
      · intro v hv
        exact hlinks v (List.mem_cons_of_mem _ hv)
    · rw [if_neg hc]
      exact enqueueAll_inv env seed visited depth hd rest q dm hq hdm
        fun v hv => hlinks v (List.mem_cons_of_mem _ hv)

/-- One crawl step preserves the invariant. -/
theorem crawlStep_inv (env : String → Option String) (seed : String)
    (maxPdfs : Nat) (s : CrawlState) (url : String) (rest : List String)
    (hinv : CrawlInv env seed s) (hq : s.queue = url :: rest) :
    CrawlInv env seed (crawlStep env maxPdfs s url rest) := by
  obtain ⟨hdm, hque, hnd, htv, htr⟩ := hinv
  have hrest : ∀ u ∈ rest, dmHas s.depthMap u = true := by
    intro u hu
    exact hque u (by rw [hq]; exact List.mem_cons_of_mem _ hu)
  have hasKey : dmHas s.depthMap url = true :=
    hque url (by rw [hq]; exact List.mem_cons_self url rest)
  obtain ⟨p, hp⟩ := Option.isSome_iff_exists.mp hasKey
  have hpmem : p ∈ s.depthMap := List.mem_of_find?_eq_some hp
  have hp1 : p.1 = url :=
    of_decide_eq_true
      (@List.find?_some (String × Nat) (fun q => decide (q.1 = url)) p
        s.depthMap hp)
  have hdepth_eq : (dmLookup s.depthMap url).getD 0 = p.2 := by
    unfold dmLookup
    rw [hp]
    rfl
  have hdprop := hdm p hpmem
  have hdle : (dmLookup s.depthMap url).getD 0 ≤ crawlMaxDepth := by
    rw [hdepth_eq]; exact hdprop.1
  have hreach : ∃ k ≤ (dmLookup s.depthMap url).getD 0,
      ReachN env seed k url := by
    rw [hdepth_eq, ← hp1]; exact hdprop.2
  have hnd1 : url ∉ s.visited → (s.visited ++ [url]).Nodup := by
    intro hnotv
    rw [List.nodup_append]
    refine ⟨hnd, List.nodup_singleton url, ?_⟩
    intro a ha hb
    rw [List.mem_singleton.mp hb] at ha
    exact hnotv ha
  have htv1 : (s.trace ++ [(url, (dmLookup s.depthMap url).getD 0)]).map
      Prod.fst = s.visited ++ [url] := by
    rw [List.map_append, htv]
    rfl
  have htr1 : ∀ e ∈ s.trace ++ [(url, (dmLookup s.depthMap url).getD 0)],
      e.2 ≤ crawlMaxDepth ∧ ∃ k ≤ e.2, ReachN env seed k e.1 := by
    intro e he
    rcases List.mem_append.mp he with he | he
    · exact htr e he
    · rw [List.mem_singleton.mp he]
      exact ⟨hdle, hreach⟩
  unfold crawlStep
  dsimp only
  split
  · -- already visited or depth exceeded: only the queue shrinks
    exact ⟨hdm, hrest, hnd, htv, htr⟩
  · rename_i hskip
    have hnotv : url ∉ s.visited := fun hm =>
      hskip (by simp; exact Or.inl hm)
    split
    · -- the page fetch fails: mark visited, record the fetch, move on
      exact ⟨hdm, hrest, hnd1 hnotv, htv1, htr1⟩
    · rename_i html henv
      split
      · rename_i hcont
        have hlinks : ∀ v ∈ (extractPDFLinks html url 50).filter
            (fun l => !strEndsWith l ".pdf"),
            ∃ k ≤ (dmLookup s.depthMap url).getD 0 + 1, ReachN env seed k v := by
          intro v hv
          obtain ⟨k, hk, hr⟩ := hreach
          exact ⟨k + 1, by omega, hr.step ⟨html, henv, hv⟩⟩
        have hd1 : (dmLookup s.depthMap url).getD 0 + 1 ≤ crawlMaxDepth := by
          have := hcont.2
          omega
        have := enqueueAll_inv env seed (s.visited ++ [url])
          ((dmLookup s.depthMap url).getD 0) hd1
          ((extractPDFLinks html url 50).filter fun l => !strEndsWith l ".pdf")
          rest s.depthMap hrest hdm hlinks
        exact ⟨this.2, this.1, hnd1 hnotv, htv1, htr1⟩
      · exact ⟨hdm, hrest, hnd1 hnotv, htv1, htr1⟩

/-- The crawl loop preserves the invariant, for any fuel. -/
theorem crawlLoop_inv (env : String → Option String) (seed : String)
    (maxPdfs : Nat) :
    ∀ (fuel : Nat) (s : CrawlState), CrawlInv env seed s →
      CrawlInv env seed (crawlLoop env maxPdfs fuel s)
  | 0, _, h => h
  | fuel + 1, s, h => by
    have step : crawlLoop env maxPdfs (fuel + 1) s =
        match s.queue with
        | [] => s
        | url :: rest =>
          if s.pdfLinks.length < maxPdfs then
            crawlLoop env maxPdfs fuel (crawlStep env maxPdfs s url rest)
          else s := rfl
    rw [step]
    split
    · exact h
    · rename_i url rest hq
      split
      · exact crawlLoop_inv env seed maxPdfs fuel _
          (crawlStep_inv env seed maxPdfs s url rest h hq)
      · exact h

/-- The initial crawl state satisfies the invariant. -/
theorem initCrawl_inv (env : String → Option String) (seed : String) :
    CrawlInv env seed (initCrawlState seed) := by
  refine ⟨?_, ?_, List.nodup_nil, rfl, ?_⟩
  · intro p hp
    rw [List.mem_singleton.mp hp]
    exact ⟨Nat.zero_le _, 0, Nat.le_refl 0, ReachN.base⟩
  · intro u hu
    rw [List.mem_singleton.mp hu]
    simp only [dmHas, initCrawlState, List.find?_isSome]
    exact ⟨(seed, 0), List.mem_singleton.mpr rfl, by simp⟩
  · intro e he
    cases he

/-- C7: after any number of crawl-loop steps from the initial state, the
fetch trace contains no URL twice, every fetch happened with a recorded
depth annotation of at most `maxDepth = 3`, and every fetched URL is
reachable from the seed within at most 3 link steps — so a page reachable
only through 4-hop chains is never fetched. -/
theorem crawl_no_refetch_depth_bound (env : String → Option String)
    (seed : String) (maxPdfs fuel : Nat) :
    ((crawlLoop env maxPdfs fuel (initCrawlState seed)).trace.map
        Prod.fst).Nodup
    ∧ ∀ e ∈ (crawlLoop env maxPdfs fuel (initCrawlState seed)).trace,
        e.2 ≤ crawlMaxDepth ∧ ∃ k ≤ crawlMaxDepth, ReachN env seed k e.1 := by
  obtain ⟨_, _, hnd, htv, htr⟩ :=
    crawlLoop_inv env seed maxPdfs fuel _ (initCrawl_inv env seed)
  refine ⟨by rw [htv]; exact hnd, ?_⟩
  intro e he
  obtain ⟨h1, k, hk, hr⟩ := htr e he
  exact ⟨h1, k, Nat.le_trans hk h1, hr⟩
